import Mathlib

/-!
Verification of the `mks` tree-structure creator (`src/main.rs`).

The program parses a textual tree depiction (box-drawing glyphs or plain
indentation) into `TreeNode` values and replays them as filesystem creation
calls.  This file is a shallow embedding of the core of `src/main.rs`:
strings are `List Char` (Rust `&str` is a sequence of Unicode scalar values;
byte-based operations of the source, such as `str::len`, are modelled through
an explicit UTF-8 encoding), filesystem calls become an explicit operation
trace checked against a failure oracle, and console output becomes a `LogMsg`
trace.  Paths composed by the builder are modelled as lists of components
relative to the resolved base directory.
-/

namespace Mks

/-- Strings of the source are modelled as lists of Unicode scalar values. -/
abbrev Str := List Char

-- ==========================================================================
-- Character classes used by the source
-- ==========================================================================

/-- Rust `char::is_whitespace`: the Unicode `White_Space` property. -/
def rustIsWhitespace (c : Char) : Bool :=
  c == ' ' || c == '\t' || c == '\n' || c == '\r' ||
  c.toNat == 0x0B || c.toNat == 0x0C || c.toNat == 0x85 || c.toNat == 0xA0 ||
  c.toNat == 0x1680 || (0x2000 ≤ c.toNat && c.toNat ≤ 0x200A) ||
  c.toNat == 0x2028 || c.toNat == 0x2029 || c.toNat == 0x202F ||
  c.toNat == 0x205F || c.toNat == 0x3000

/-- Rust `char::is_control`: the Unicode `Cc` category,
U+0000..U+001F and U+007F..U+009F. -/
def rustIsControl (c : Char) : Bool :=
  c.toNat < 0x20 || (0x7F ≤ c.toNat && c.toNat ≤ 0x9F)

/-- Rust `str::trim_start` over the model. -/
def trimStartWs (s : Str) : Str := s.dropWhile rustIsWhitespace

/-- Rust `str::trim_end` over the model. -/
def trimEndWs (s : Str) : Str := (s.reverse.dropWhile rustIsWhitespace).reverse

/-- Rust `str::trim` over the model. -/
def rustTrim (s : Str) : Str := trimStartWs (trimEndWs s)

/-- `trim_end_matches(&['/', '\\'])` used by the path helpers. -/
def trimEndSeps (s : Str) : Str :=
  (s.reverse.dropWhile (fun c => c == '/' || c == '\\')).reverse

-- ==========================================================================
-- UTF-8 byte model (Rust `str::len` and `str::as_bytes` count bytes)
-- ==========================================================================

/-- UTF-8 encoding of one Unicode scalar value. -/
def utf8Bytes (c : Char) : List Nat :=
  let n := c.toNat
  if n < 0x80 then [n]
  else if n < 0x800 then [0xC0 + n / 64, 0x80 + n % 64]
  else if n < 0x10000 then
    [0xE0 + n / 4096, 0x80 + (n / 64) % 64, 0x80 + n % 64]
  else
    [0xF0 + n / 262144, 0x80 + (n / 4096) % 64, 0x80 + (n / 64) % 64,
     0x80 + n % 64]

/-- `str::as_bytes` over the model. -/
def utf8Encode (s : Str) : List Nat := (s.map utf8Bytes).flatten

/-- `str::len` (number of UTF-8 bytes) over the model. -/
def utf8Len (s : Str) : Nat := (s.map (fun c => (utf8Bytes c).length)).sum

-- ==========================================================================
-- Substring search (Rust `str::find`, `str::rfind`, `str::contains`)
-- ==========================================================================

/-- Index (in scalar values) of the first occurrence of `pat` in the list,
mirroring Rust `str::find` for this model. -/
def findSub (pat : Str) : Str → Option Nat
  | [] => if pat.isPrefixOf ([] : Str) then some 0 else none
  | c :: rest =>
    if pat.isPrefixOf (c :: rest) then some 0
    else (findSub pat rest).map (fun n => n + 1)

/-- Search positions `i, i-1, …, 0` for an occurrence of `pat`. -/
def rfindSubFrom (pat l : Str) : Nat → Option Nat
  | 0 => if pat.isPrefixOf l then some 0 else none
  | i + 1 =>
    if pat.isPrefixOf (l.drop (i + 1)) then some (i + 1)
    else rfindSubFrom pat l i

/-- Index of the last occurrence of `pat`, mirroring Rust `str::rfind`. -/
def rfindSub (pat l : Str) : Option Nat := rfindSubFrom pat l l.length

/-- Rust `str::contains` for a literal pattern. -/
def hasSub (pat : Str) : Str → Bool
  | [] => pat.isPrefixOf ([] : Str)
  | c :: rest => pat.isPrefixOf (c :: rest) || hasSub pat rest

-- ==========================================================================
-- PATH UTILITIES (src/main.rs lines 40-79)
-- ==========================================================================

/-- Components of a POSIX path: split on `/`, dropping empty and `.`
segments.  Models the component view of Rust `std::path::Path` for the
POSIX target (the build environment of the source); `.`/`..` normalization
at the front of relative paths is not reproduced. -/
def splitOnChar (sep : Char) : Str → List Str
  | [] => [[]]
  | c :: rest =>
    if c = sep then [] :: splitOnChar sep rest
    else
      match splitOnChar sep rest with
      | [] => [[c]]
      | p :: ps => (c :: p) :: ps

/-- Filtered path components of a POSIX path string. -/
def pathComponents (s : Str) : List Str :=
  (splitOnChar '/' s).filter (fun p => !p.isEmpty && !(p == ['.']))

/-- Join components with `/`. -/
def joinSlash : List Str → Str
  | [] => []
  | [p] => p
  | p :: q :: ps => p ++ '/' :: joinSlash (q :: ps)

/-- `extract_base_name` (main.rs 41-47): trim trailing separators, then
`Path::file_name` (POSIX model). -/
def extract_base_name (path_str : Str) : Option Str :=
  let t := trimEndSeps path_str
  match (pathComponents t).getLast? with
  | none => none
  | some l => if l = ("..".toList) then none else some l

/-- `extract_parent_path` (main.rs 50-54): trim trailing separators, then
`Path::parent` (POSIX model). -/
def extract_parent_path (path_str : Str) : Option Str :=
  let t := trimEndSeps path_str
  let isAbs := t.head? = some '/'
  match pathComponents t with
  | [] => none
  | c :: cs =>
    let start := (c :: cs).dropLast
    if start = [] then (if isAbs then some ['/'] else some [])
    else some ((if isAbs then ['/'] else []) ++ joinSlash start)

/-- `is_absolute_path` (main.rs 57-79).  The drive-letter test inspects the
second and third UTF-8 *bytes* of the trimmed string, exactly as the source
does via `as_bytes`. -/
def is_absolute_path (s : Str) : Bool :=
  let t := rustTrim s
  let bs := utf8Encode t
  (decide (3 ≤ bs.length) && bs.getD 1 0 == 58 &&
     (bs.getD 2 0 == 92 || bs.getD 2 0 == 47)) ||
  t.take 2 == ['\\', '\\'] || t.take 2 == ['/', '/'] ||
  t.head? == some '/'

-- ==========================================================================
-- PARSING (src/main.rs lines 85-200)
-- ==========================================================================

/-- The emoji set stripped by `strip_emoji_prefix` (main.rs 86-94). -/
def isEmojiChar (c : Char) : Bool :=
  c == '📄' || c == '📁' || c == '📂' || c == '📃' || c == '📋' || c == '📝' ||
  c == '🗂' || c == '🗃' || c == '📑' || c == '📊' || c == '📈' || c == '📉' ||
  c == '✅' || c == '❌' || c == '⚠' || c == '🔴' || c == '🟢' || c == '🟡'

/-- `strip_emoji_prefix` (main.rs 86-94): drop leading emoji/whitespace,
then trim. -/
def strip_emoji_lead (s : Str) : Str :=
  rustTrim (s.dropWhile (fun c => isEmojiChar c || rustIsWhitespace c))

/-- Comment-introducing characters of `remove_comments` (main.rs 97-106). -/
def isCommentChar (c : Char) : Bool :=
  c == '#' || c == '✅' || c == '❌' || c == '←' || c == '→'

/-- `remove_comments` (main.rs 97-106): truncate at the first comment
character, then trim the end. -/
def remove_comments (line : Str) : Str :=
  trimEndWs (line.takeWhile (fun c => !isCommentChar c))

/-- `calculate_indent` (main.rs 109-111): the depth of a line is the number
of `│` glyphs it contains. -/
def calculate_indent (line : Str) : Nat := line.count '│'

/-- The tree markers tried, in order, by `extract_name_from_line`
(main.rs 116). -/
def markers : List Str :=
  [("├── ".toList), ("└── ".toList), ("├─ ".toList), ("└─ ".toList),
   ("├─".toList), ("└─".toList)]

/-- First marker of the list found in the line, with its length. -/
def findMarker (line : Str) : List Str → Option (Nat × Nat)
  | [] => none
  | m :: ms =>
    match findSub m line with
    | some p => some (p, m.length)
    | none => findMarker line ms

/-- Leading characters stripped when no marker is found (main.rs 129-132). -/
def isTreeLeadChar (c : Char) : Bool :=
  c == '│' || c == '├' || c == '└' || c == '─' || c == '┬' || c == '┼' ||
  c == ' ' || c == '\t'

/-- `extract_name_from_line` (main.rs 114-150).  Returns the candidate name
and, for absolute-path root lines, the full path as a side value. -/
def extract_name_from_line (line : Str) : Option (Str × Option Str) :=
  match findMarker line markers with
  | some (p, len) => some (rustTrim (line.drop (p + len)), none)
  | none =>
    let cleaned := rustTrim line
    let cleaned := cleaned.dropWhile isTreeLeadChar
    let cleaned := strip_emoji_lead cleaned
    if cleaned = [] then none
    else if is_absolute_path cleaned then
      match extract_base_name cleaned with
      | some base => some (base, some cleaned)
      | none => some (cleaned, none)
    else some (cleaned, none)

/-- The size-annotation stripping step of `parse_tree_line`
(main.rs 177-181): if the suffix starting at the last `" ("` contains
`"B)"`, `"KB)"` or `"MB)"`, drop it and trim. -/
def stripSizeInfo (name : Str) : Str :=
  match rfindSub (" (".toList) name with
  | none => name
  | some pos =>
    if hasSub ("B)".toList) (name.drop pos) ||
       hasSub ("KB)".toList) (name.drop pos) ||
       hasSub ("MB)".toList) (name.drop pos)
    then rustTrim (name.take pos)
    else name

/-- `TreeNode` (main.rs 20-26). -/
structure TreeNode where
  indent : Nat
  name : Str
  is_dir : Bool
  line_number : Nat
deriving DecidableEq

/-- `ParseError` (main.rs 28-34). -/
inductive ParseError where
  | EmptyLine
  | EmptyAfterComment
  | NoNameFound
  | InvalidFilename
deriving DecidableEq

/-- Windows reserved device names (main.rs 219-223). -/
def reservedNames : List Str :=
  [("CON".toList), ("PRN".toList), ("AUX".toList), ("NUL".toList),
   ("COM1".toList), ("COM2".toList), ("COM3".toList), ("COM4".toList),
   ("COM5".toList), ("COM6".toList), ("COM7".toList), ("COM8".toList),
   ("COM9".toList),
   ("LPT1".toList), ("LPT2".toList), ("LPT3".toList), ("LPT4".toList),
   ("LPT5".toList), ("LPT6".toList), ("LPT7".toList), ("LPT8".toList),
   ("LPT9".toList)]

/-- Characters rejected on Windows targets (main.rs 228). -/
def windowsForbidden : List Char :=
  ['<', '>', ':', '"', '/', '\\', '|', '?', '*']

/-- `is_valid_filename` (main.rs 206-250).  `isWindows` models the
compile-time `cfg!(target_os = "windows")` choice.  Rust `str::len` is byte
length, hence `utf8Len`; `to_uppercase` is modelled by `Char.toUpper`
(ASCII, which is all the reserved-name comparison can match). -/
def is_valid_filename (isWindows : Bool) (name : Str) : Bool :=
  if name = [] then false
  else if utf8Len name > 255 then false
  else
    let trimmed := rustTrim name
    if trimmed = [] then false
    else if '\x00' ∈ name then false
    else if isWindows then
      let upper := trimmed.map Char.toUpper
      let base := upper.takeWhile (fun c => c != '.')
      if base ∈ reservedNames then false
      else if windowsForbidden.any (fun c => c ∈ name) then false
      else if trimmed.getLast? = some ' ' ∨ trimmed.getLast? = some '.'
        then false
      else name.all (fun c => !(rustIsControl c && c != '\t'))
    else
      if '/' ∈ name then false
      else name.all (fun c => !(rustIsControl c && c != '\t'))

/-- `parse_tree_line` (main.rs 153-200). -/
def parse_tree_line (isWindows : Bool) (line : Str) (line_number : Nat) :
    Except ParseError (TreeNode × Option Str) :=
  let l1 := trimEndWs line
  if l1.isEmpty then .error .EmptyLine
  else
    let l2 := remove_comments l1
    if l2.isEmpty then .error .EmptyAfterComment
    else
      let indent := calculate_indent l2
      match extract_name_from_line l2 with
      | none => .error .NoNameFound
      | some (n0, full_path) =>
        let n1 := strip_emoji_lead n0
        let n2 := stripSizeInfo n1
        let isDir := n2.getLast? == some '/'
        let n3 := if isDir then rustTrim n2.dropLast else n2
        if n3.isEmpty || !is_valid_filename isWindows n3 then
          .error .InvalidFilename
        else .ok (⟨indent, n3, isDir, line_number⟩, full_path)

-- ==========================================================================
-- STRUCTURE CREATION (src/main.rs lines 279-388)
-- ==========================================================================

/-- A filesystem creation call, with its target path as components relative
to the resolved base directory.  `mkdirAll` is `fs::create_dir_all`
(creates all missing ancestors), `touch` is `File::create`. -/
inductive Op where
  | mkdirAll (p : List Str)
  | touch (p : List Str)
deriving DecidableEq

/-- Abstract I/O error produced by a failing filesystem call. -/
abbrev IoErr := Str

/-- One console message; contents mirror the `println!`/`eprintln!` calls of
`create_structure` but are only used to show they do not feed back into
behaviour. -/
inductive LogMsg where
  | debugLine (line_number indent : Nat) (name : Str) (is_dir : Bool)
  | stackBefore (stack : List Str)
  | warnIndent (line_number indent stackLen : Nat)
  | stackAfterAdjust (stack : List Str)
  | createdDir (p : List Str)
  | createdFile (p : List Str)
  | stackAfter (stack : List Str)
deriving DecidableEq

/-- The `&`-conjunction split of `create_structure` (main.rs 299-303). -/
def splitNames (name : Str) : List Str :=
  ((splitOnChar '&' name).map rustTrim).filter (fun s => !s.isEmpty)

/-- Result of processing one node: new stack, creation calls in order, and
console messages. -/
structure StepRes where
  stack : List Str
  ops : List Op
  logs : List LogMsg
deriving DecidableEq

/-- The body of `create_structure`'s loop for one node (main.rs 291-385).
A file target first ensures its parent directory (`full_path.parent()`,
which relative to the base is exactly the current stack), then is created;
a directory target is created recursively.  A node whose split names are
empty is skipped (`continue`, main.rs 305-307) *before* the depth-0
stack-clearing. -/
def stepNode (debug : Bool) (node : TreeNode) (path_stack : List Str) :
    StepRes :=
  let preLogs : List LogMsg :=
    if debug then
      [.debugLine node.line_number node.indent node.name node.is_dir,
       .stackBefore path_stack]
    else []
  match splitNames node.name with
  | [] => ⟨path_stack, [], preLogs⟩
  | n0 :: ns =>
    if node.indent = 0 then
      let ops := (n0 :: ns).flatMap (fun n =>
        if node.is_dir then [Op.mkdirAll [n]]
        else [Op.mkdirAll [], Op.touch [n]])
      let clogs := if debug then (n0 :: ns).map (fun n =>
        if node.is_dir then LogMsg.createdDir [n]
        else LogMsg.createdFile [n]) else []
      ⟨if node.is_dir then [n0] else [], ops, preLogs ++ clogs⟩
    else
      let warnLogs : List LogMsg :=
        if node.indent > path_stack.length ∧ debug then
          [.warnIndent node.line_number node.indent path_stack.length]
        else []
      let stack1 :=
        if node.indent < path_stack.length then path_stack.take node.indent
        else path_stack
      let adjLogs : List LogMsg :=
        if debug then [.stackAfterAdjust stack1] else []
      let ops := (n0 :: ns).flatMap (fun n =>
        if node.is_dir then [Op.mkdirAll (stack1 ++ [n])]
        else [Op.mkdirAll stack1, Op.touch (stack1 ++ [n])])
      let clogs := if debug then (n0 :: ns).map (fun n =>
        if node.is_dir then LogMsg.createdDir (stack1 ++ [n])
        else LogMsg.createdFile (stack1 ++ [n])) else []
      let stack' := if node.is_dir then stack1 ++ [n0] else stack1
      let afterLogs : List LogMsg :=
        if debug then [.stackAfter stack'] else []
      ⟨stack', ops, preLogs ++ warnLogs ++ adjLogs ++ clogs ++ afterLogs⟩

/-- Execute creation calls in order against a failure oracle; stop at the
first failing call (the `?` operator), returning the calls that succeeded
and the propagated error. -/
def execList (oracle : Op → Option IoErr) : List Op → List Op × Option IoErr
  | [] => ([], none)
  | o :: os =>
    match oracle o with
    | some e => ([], some e)
    | none =>
      let r := execList oracle os
      (o :: r.1, r.2)

/-- Result of a `create_structure` run. -/
structure BuildRes where
  executed : List Op
  err : Option IoErr
  stackTrace : List (List Str)
  logs : List LogMsg
deriving DecidableEq

/-- `create_structure` (main.rs 279-388) over a sequence of parsed nodes:
fold `stepNode` in line order, executing each node's creation calls and
aborting the whole run at the first failure.  `stackTrace` records the path
stack after each processed node. -/
def runNodes (debug : Bool) (oracle : Op → Option IoErr) :
    List TreeNode → List Str → BuildRes
  | [], _ => ⟨[], none, [], []⟩
  | n :: rest, stack =>
    let s := stepNode debug n stack
    let e := execList oracle s.ops
    match e.2 with
    | some err => ⟨e.1, some err, [s.stack], s.logs⟩
    | none =>
      let r := runNodes debug oracle rest s.stack
      ⟨e.1 ++ r.executed, r.err, s.stack :: r.stackTrace, s.logs ++ r.logs⟩

/-- The creation calls a node sequence asks for, independent of any
failure (the source generates them from the nodes alone). -/
def allOps : List TreeNode → List Str → List Op
  | [], _ => []
  | n :: rest, stack =>
    let s := stepNode false n stack
    s.ops ++ allOps rest s.stack

/-- Paths brought into existence by one creation call: `create_dir_all`
creates every missing ancestor, `File::create` the file itself. -/
def opPaths : Op → List (List Str)
  | .mkdirAll p => (List.range p.length).map (fun i => p.take (i + 1))
  | .touch p => [p]

/-- All paths (relative to the base) created by a trace of calls. -/
def createdPaths (ops : List Op) : List (List Str) := ops.flatMap opPaths

-- ==========================================================================
-- MAIN PIPELINE (src/main.rs lines 429-527)
-- ==========================================================================

/-- The parse loop of `main` (main.rs 456-476), started with `idx = 0`:
collect successfully parsed nodes in order, keep the absolute-path side
value only when it came from the line at index 0, and count failures. -/
def parseLoop (isWindows : Bool) (idx : Nat) :
    List Str → List TreeNode × Option Str × Nat
  | [] => ([], none, 0)
  | l :: rest =>
    let r := parseLoop isWindows (idx + 1) rest
    match parse_tree_line isWindows l (idx + 1) with
    | .ok (node, full_path) =>
      (node :: r.1, if idx = 0 ∧ full_path.isSome then full_path else r.2.1,
       r.2.2)
    | .error _ => (r.1, r.2.1, r.2.2 + 1)

/-- The resolved base directory (main.rs 491-516): `.` (the process working
directory) or the parent of the detected absolute root path.  When the
parent is used the source also creates it if missing
(`fs::create_dir_all(&parent)`). -/
inductive BasePath where
  | cwd
  | abs (p : Str)
deriving DecidableEq

/-- Base-path decision of `main` from the saved root full path. -/
def basePathOf (root_full_path : Option Str) : BasePath :=
  match root_full_path with
  | none => .cwd
  | some fp =>
    match extract_parent_path fp with
    | some p => .abs p
    | none => .cwd

/-- Outcome of a `main` run (the exit paths of main.rs 446-526). -/
inductive MainResult where
  | emptyInput
  | noValidStructure (parse_errors : Nat)
  | built (nodes : List TreeNode) (base : BasePath) (stackTrace : List (List Str))
      (executed : List Op) (err : Option IoErr) (logs : List LogMsg)
deriving DecidableEq

/-- The core of `main` (main.rs 429-527): read lines (input acquisition is a
collaborator), parse them all, stop if nothing parsed, resolve the base
directory once, then build. -/
def runMain (isWindows debug : Bool) (oracle : Op → Option IoErr)
    (lines : List Str) : MainResult :=
  if lines = [] then .emptyInput
  else
    let p := parseLoop isWindows 0 lines
    if p.1 = [] then .noValidStructure p.2.2
    else
      let base := basePathOf p.2.1
      let b := runNodes debug oracle p.1 []
      .built p.1 base b.stackTrace b.executed b.err b.logs

/-- Creation calls requested when running `main` on these lines. -/
def mainAllOps (isWindows : Bool) (lines : List Str) : List Op :=
  allOps (parseLoop isWindows 0 lines).1 []

/-- Calls actually executed by a `main` run. -/
def mainExecuted : MainResult → List Op
  | .built _ _ _ e _ _ => e
  | _ => []

/-- First fatal build error of a `main` run. -/
def mainErr : MainResult → Option IoErr
  | .built _ _ _ _ err _ => err
  | _ => none

/-- Base directory chosen by a `main` run that reached the build phase. -/
def mainBase : MainResult → Option BasePath
  | .built _ b _ _ _ _ => some b
  | _ => none

/-- Erase the console trace of a run, keeping all behaviour. -/
def stripLogs : MainResult → MainResult
  | .built ns b st e err _ => .built ns b st e err []
  | r => r

end Mks

namespace Mks

/-- Decidable equality for `Except`, used to evaluate parser results in
closed theorems. -/
instance {ε α : Type} [DecidableEq ε] [DecidableEq α] :
    DecidableEq (Except ε α) := fun a b =>
  match a, b with
  | .ok x, .ok y => decidable_of_iff (x = y) (by simp)
  | .error x, .error y => decidable_of_iff (x = y) (by simp)
  | .ok _, .error _ => isFalse (by simp)
  | .error _, .ok _ => isFalse (by simp)

end Mks

namespace Mks

-- ==========================================================================
-- Claim-side definitions (written from the spec's words, for comparison)
-- ==========================================================================

/-- Modelled from the spec: the connector-glyph test of the prefix-width
fallback clause ("no connector glyphs are present"), using the spec's
box-drawing glyph set. -/
def spec_has_connector (line : Str) : Bool :=
  line.any (fun c =>
    c == '│' || c == '├' || c == '└' || c == '─' || c == '┬' || c == '┼')

/-- Modelled from the spec: the prefix-width heuristic, "count leading
whitespace characters and divide by a fixed unit width (4)". -/
def spec_prefix_width_depth (line : Str) : Nat :=
  (line.takeWhile rustIsWhitespace).length / 4

-- ==========================================================================
-- Concrete inputs used by closed theorems
-- ==========================================================================

/-- The five-line end-to-end scenario of the spec. -/
def c1Lines : List Str :=
  [("project/".toList), ("├── src/".toList), ("│   ├── main.ext".toList),
   ("│   └── lib.ext".toList), ("└── README.md".toList)]

/-- A failure-free filesystem oracle. -/
def okOracle : Op → Option IoErr := fun _ => none

/-- The ancestor components the builder composes in front of every target
name of a node: empty at depth 0 (the stack is cleared), otherwise the
stack truncated to the node's depth when it is deeper than the depth
(main.rs 310-311, 339-347, 354-359). -/
def stepParent (node : TreeNode) (stack : List Str) : List Str :=
  if node.indent = 0 then []
  else if node.indent < stack.length then stack.take node.indent
  else stack

/-- Whether a parse attempt succeeded. -/
def parseOk (r : Except ParseError (TreeNode × Option Str)) : Bool :=
  match r with
  | .ok _ => true
  | .error _ => false

/-- Whether the oracle lets a creation call succeed. -/
def okP (oracle : Op → Option IoErr) (o : Op) : Bool := (oracle o).isNone

/-- An oracle that fails exactly on the file `b.txt` at the root. -/
def failBOracle : Op → Option IoErr := fun o =>
  if o = Op.touch [("b.txt".toList)] then some ("denied".toList) else none


-- ==========================================================================
-- C1
-- ==========================================================================

/-- C1 (code_bug evidence): on the five-line example the program creates
`project/`, `src/`, `src/main.ext`, `src/lib.ext` and `README.md` relative
to the base — `src/` and `README.md` land at the root instead of under
`project/`, because `├── src/` and `└── README.md` contain zero `│` glyphs
and hence get depth 0, which clears the path stack.  The claim's expected
path `project/src` is never created. -/
theorem c1_code_behavior :
    createdPaths (mainExecuted (runMain false false okOracle c1Lines)) =
      [[("project".toList)], [("src".toList)], [("src".toList)],
       [("src".toList), ("main.ext".toList)], [("src".toList)],
       [("src".toList), ("lib.ext".toList)], [("README.md".toList)]] ∧
    [("project".toList), ("src".toList)] ∉
      createdPaths (mainExecuted (runMain false false okOracle c1Lines)) ∧
    [("src".toList)] ∈
      createdPaths (mainExecuted (runMain false false okOracle c1Lines)) := by
  refine ⟨by decide, by decide, by decide⟩

end Mks

namespace Mks

-- ==========================================================================
-- C2
-- ==========================================================================

/-- C2 (counterexample): the line `"    deep.txt"` has no connector glyph
and four leading whitespace characters, so the claimed prefix-width
heuristic would give depth 4 / 4 = 1; `calculate_indent` gives 0 — the
fallback does not exist in the code. -/
theorem c2_counterexample :
    spec_has_connector ("    deep.txt".toList) = false ∧
    spec_prefix_width_depth ("    deep.txt".toList) = 1 ∧
    calculate_indent ("    deep.txt".toList) = 0 := by
  refine ⟨by decide, by decide, by decide⟩

/-- C2 (amended): for every normalized line containing no connector glyph,
the Indent Calculator yields depth 0 — leading whitespace never contributes
to the depth; the spec's prefix-width fallback is absent from the code. -/
theorem c2_no_fallback (line : Str)
    (h : spec_has_connector line = false) : calculate_indent line = 0 := by
  unfold calculate_indent
  refine List.count_eq_zero.mpr (fun hmem => ?_)
  unfold spec_has_connector at h
  rw [List.any_eq_false] at h
  simpa using h _ hmem

/-- Witness for `c2_no_fallback` at the line `"    deep.txt"`. -/
theorem c2_no_fallback_witness :
    spec_has_connector ("    deep.txt".toList) = false ∧
    calculate_indent ("    deep.txt".toList) = 0 :=
  ⟨by decide, c2_no_fallback _ (by decide)⟩

-- ==========================================================================
-- C3
-- ==========================================================================

/-- C3: if a normalized line consists of a prefix holding `N` vertical-bar
connector glyphs (interleaved with arbitrary other characters — in
particular, whitespace of any width) followed by a name free of `│`, the
computed depth is exactly `N`. -/
theorem c3_connector_depth (pre name : Str) (h : '│' ∉ name) :
    calculate_indent (pre ++ name) = pre.count '│' := by
  unfold calculate_indent
  rw [List.count_append, List.count_eq_zero.mpr h, Nat.add_zero]

/-- Witness for `c3_connector_depth`: two `│` glyphs surrounded by
irregular whitespace give depth 2. -/
theorem c3_connector_depth_witness :
    '│' ∉ ("└── x.txt".toList) ∧
    calculate_indent (("│ \t  │   ".toList) ++ ("└── x.txt".toList)) =
      (("│ \t  │   ".toList)).count '│' ∧
    (("│ \t  │   ".toList)).count '│' = 2 :=
  ⟨by decide, c3_connector_depth _ _ (by decide), by decide⟩

-- ==========================================================================
-- C4 (counterexample); the amended theorem follows later
-- ==========================================================================

/-- C4 (counterexample): with an empty first line, the first successfully
parsed node comes from line 2 and carries the absolute path
`/home/user/app/`, whose parent is `/home/user`; yet the build's base
directory is the current working directory, because the code consults only
input line index 0 for the absolute-path side value. -/
theorem c4_counterexample :
    mainBase (runMain false false okOracle
        [[], ("/home/user/app/".toList)]) = some BasePath.cwd ∧
    parse_tree_line false ("/home/user/app/".toList) 2 =
      .ok (⟨0, ("app".toList), false, 2⟩, some ("/home/user/app/".toList)) ∧
    extract_parent_path ("/home/user/app/".toList) =
      some ("/home/user".toList) ∧
    BasePath.cwd ≠ BasePath.abs ("/home/user".toList) := by
  refine ⟨by decide, by decide, by decide, by decide⟩

-- ==========================================================================
-- C7 (counterexample); the amended theorem follows later
-- ==========================================================================

/-- C7 (counterexample, Windows ruleset): the line `"CON & a.txt"` parses
successfully — validation is applied to the whole un-split name, which is
not reserved — although the split element `"CON"` is itself rejected by the
Filename Validator.  The names sequence is therefore not element-wise
valid, and the node does not fail with `InvalidFilename`. -/
theorem c7_counterexample :
    parse_tree_line true ("CON & a.txt".toList) 1 =
      .ok (⟨0, ("CON & a.txt".toList), false, 1⟩, none) ∧
    ("CON".toList) ∈ splitNames ("CON & a.txt".toList) ∧
    is_valid_filename true ("CON".toList) = false := by
  refine ⟨by decide, by decide, by decide⟩

-- ==========================================================================
-- C8 (counterexample); the amended theorem follows later
-- ==========================================================================

/-- C8 (counterexample): the parseable depth-0 node `"&"` (a file node whose
conjunction split is empty) is skipped before the depth-0 handling, so the
path stack is *not* cleared: processing it on stack `["a"]` leaves `["a"]`,
while the claim requires truncation to 0 entries. -/
theorem c8_counterexample :
    parse_tree_line false ("&".toList) 2 =
      .ok (⟨0, ("&".toList), false, 2⟩, none) ∧
    (stepNode false ⟨0, ("&".toList), false, 2⟩ [("a".toList)]).stack =
      [("a".toList)] ∧
    (stepNode false ⟨0, ("&".toList), false, 2⟩ [("a".toList)]).ops = [] ∧
    ([("a".toList)] : List Str) ≠ [] := by
  refine ⟨by decide, by decide, by decide, by decide⟩

end Mks

namespace Mks

-- ==========================================================================
-- C6 and C8 (amended): the path-stack discipline of the builder
-- ==========================================================================

/-- Characterization of `stepNode` on a node with a nonempty split: one
creation target per split name against the shared parent, and the stack
update. -/
theorem stepNode_spec (debug : Bool) (node : TreeNode)
    (stack : List Str) (n0 : Str) (ns : List Str)
    (h : splitNames node.name = n0 :: ns) :
    (stepNode debug node stack).ops =
      (n0 :: ns).flatMap (fun nm =>
        if node.is_dir then [Op.mkdirAll (stepParent node stack ++ [nm])]
        else [Op.mkdirAll (stepParent node stack),
              Op.touch (stepParent node stack ++ [nm])]) ∧
    (node.is_dir = true →
      (stepNode debug node stack).stack = stepParent node stack ++ [n0]) ∧
    (node.is_dir = false →
      (stepNode debug node stack).stack = stepParent node stack) := by
  unfold stepNode stepParent
  rw [h]
  by_cases h0 : node.indent = 0 <;> simp only [h0, if_true, if_false, reduceIte]
  · refine ⟨?_, ?_, ?_⟩
    · cases hd : node.is_dir <;> simp [hd]
    · intro hd; simp [hd]
    · intro hd; simp [hd]
  · refine ⟨?_, ?_, ?_⟩
    · cases hd : node.is_dir <;> simp [hd]
    · intro hd; simp [hd]
    · intro hd; simp [hd]

/-- C6: a node whose name splits into the targets `n0 :: ns` yields exactly
one independent creation target per split name, each composed against the
same parent components and sharing the node's kind (a directory target is
one recursive directory creation; a file target ensures the shared parent
and then creates the file); and if the node is a directory only the first
split name is pushed onto the stack as the structural ancestor — the
remaining co-listed names never become ancestors — while a file node
leaves the (truncated) stack unchanged. -/
theorem c6_conjunction_split (debug : Bool) (node : TreeNode)
    (stack : List Str) (n0 : Str) (ns : List Str)
    (h : splitNames node.name = n0 :: ns) :
    (stepNode debug node stack).ops =
      (n0 :: ns).flatMap (fun nm =>
        if node.is_dir then [Op.mkdirAll (stepParent node stack ++ [nm])]
        else [Op.mkdirAll (stepParent node stack),
              Op.touch (stepParent node stack ++ [nm])]) ∧
    (node.is_dir = true →
      (stepNode debug node stack).stack = stepParent node stack ++ [n0]) ∧
    (node.is_dir = false →
      (stepNode debug node stack).stack = stepParent node stack) :=
  stepNode_spec debug node stack n0 ns h

/-- Witness for `c6_conjunction_split`: the node
`"a.txt & b.txt & c.txt"` (depth 1, file) on stack `["root"]` yields three
file targets under the same parent `["root"]` and leaves the stack
unchanged. -/
theorem c6_conjunction_split_witness :
    splitNames ("a.txt & b.txt & c.txt".toList) =
      [("a.txt".toList), ("b.txt".toList), ("c.txt".toList)] ∧
    (stepNode false ⟨1, ("a.txt & b.txt & c.txt".toList), false, 7⟩
        [("root".toList)]).ops =
      [Op.mkdirAll [("root".toList)],
       Op.touch [("root".toList), ("a.txt".toList)],
       Op.mkdirAll [("root".toList)],
       Op.touch [("root".toList), ("b.txt".toList)],
       Op.mkdirAll [("root".toList)],
       Op.touch [("root".toList), ("c.txt".toList)]] ∧
    (stepNode false ⟨1, ("a.txt & b.txt & c.txt".toList), false, 7⟩
        [("root".toList)]).stack = [("root".toList)] := by
  have h := c6_conjunction_split false
    ⟨1, ("a.txt & b.txt & c.txt".toList), false, 7⟩ [("root".toList)]
    ("a.txt".toList) [("b.txt".toList), ("c.txt".toList)] (by decide)
  exact ⟨by decide, h.1.trans (by decide), (h.2.2 rfl).trans (by decide)⟩

/-- C8 (amended): provided a node's conjunction split yields at least one
name (a node with an empty split is skipped entirely and leaves the stack
untouched, see `c8_counterexample`): after a directory node of depth `d`
the stack length is `d + 1`, except that when `d` exceeded the previous
length the stack only grows by one without truncation; after a file node
the stack is unchanged beyond truncation to `d` entries; and a depth-0 node
first clears the stack entirely, so it ends as the single first split name
(directory) or empty (file). -/
theorem c8_stack_invariant (debug : Bool) (node : TreeNode)
    (stack : List Str) (h : splitNames node.name ≠ []) :
    (node.is_dir = true →
      (stepNode debug node stack).stack.length =
        (if node.indent = 0 then 1
         else if node.indent ≤ stack.length then node.indent + 1
         else stack.length + 1)) ∧
    (node.is_dir = false →
      (stepNode debug node stack).stack =
        (if node.indent ≤ stack.length then stack.take node.indent
         else stack)) ∧
    (node.indent = 0 →
      (stepNode debug node stack).stack =
        (if node.is_dir then [(splitNames node.name).headI] else [])) := by
  obtain ⟨n0, ns, hsplit⟩ :
      ∃ n0 ns, splitNames node.name = n0 :: ns := by
    cases hs : splitNames node.name with
    | nil => exact absurd hs h
    | cons a l => exact ⟨a, l, rfl⟩
  have h6 := stepNode_spec debug node stack n0 ns hsplit
  refine ⟨?_, ?_, ?_⟩
  · intro hd
    rw [h6.2.1 hd]
    unfold stepParent
    by_cases h0 : node.indent = 0
    · simp [h0]
    · rcases Nat.lt_or_ge node.indent stack.length with hlt | hge
      · have : node.indent ≤ stack.length := Nat.le_of_lt hlt
        simp [h0, hlt, this, List.length_take, Nat.min_eq_left this]
      · have hnlt : ¬ node.indent < stack.length := Nat.not_lt.mpr hge
        rcases Nat.eq_or_lt_of_le hge with heq | hlt2
        · simp only [h0, hnlt, if_false, reduceIte, ← heq, Nat.le_refl,
            if_true]
          split_ifs <;> simp_all
        · have : ¬ node.indent ≤ stack.length := Nat.not_le.mpr hlt2
          simp [h0, hnlt, this]
  · intro hd
    rw [h6.2.2 hd]
    unfold stepParent
    by_cases h0 : node.indent = 0
    · simp [h0]
    · rcases Nat.lt_or_ge node.indent stack.length with hlt | hge
      · simp [h0, hlt, Nat.le_of_lt hlt]
      · have hnlt : ¬ node.indent < stack.length := Nat.not_lt.mpr hge
        rcases Nat.eq_or_lt_of_le hge with heq | hlt2
        · simp only [h0, hnlt, if_false, reduceIte, ← heq, Nat.le_refl,
            if_true, List.take_length]
          split_ifs <;> simp_all
        · have : ¬ node.indent ≤ stack.length := Nat.not_le.mpr hlt2
          simp [h0, hnlt, this]
  · intro h0
    rw [hsplit]
    cases hd : node.is_dir
    · rw [h6.2.2 hd]; unfold stepParent; simp [h0]
    · rw [h6.2.1 hd]; unfold stepParent; simp [h0]

/-- Witness for `c8_stack_invariant`: a depth-2 directory node on a stack
of 3 ancestors truncates to 2 and pushes itself: length 3. -/
theorem c8_stack_invariant_witness :
    splitNames ("docs".toList) ≠ [] ∧
    (stepNode false ⟨2, ("docs".toList), true, 3⟩
        [("a".toList), ("b".toList), ("c".toList)]).stack.length = 3 := by
  have h := c8_stack_invariant false ⟨2, ("docs".toList), true, 3⟩
    [("a".toList), ("b".toList), ("c".toList)] (by decide)
  exact ⟨by decide, (h.1 rfl).trans (by decide)⟩

end Mks

namespace Mks

-- ==========================================================================
-- C9: the debug flag only affects the console trace
-- ==========================================================================

/-- The stack and the creation calls produced for a node do not depend on
the debug flag. -/
theorem stepNode_debug_invariant (d : Bool) (n : TreeNode) (st : List Str) :
    (stepNode d n st).stack = (stepNode false n st).stack ∧
    (stepNode d n st).ops = (stepNode false n st).ops := by
  unfold stepNode
  cases hs : splitNames n.name with
  | nil => simp
  | cons a l => by_cases h0 : n.indent = 0 <;> simp [h0]

/-- A whole build run is debug-invariant in everything but its console
trace. -/
theorem runNodes_debug_invariant (d : Bool) (oracle : Op → Option IoErr)
    (nodes : List TreeNode) (st : List Str) :
    (runNodes d oracle nodes st).executed =
      (runNodes false oracle nodes st).executed ∧
    (runNodes d oracle nodes st).err =
      (runNodes false oracle nodes st).err ∧
    (runNodes d oracle nodes st).stackTrace =
      (runNodes false oracle nodes st).stackTrace := by
  induction nodes generalizing st with
  | nil => simp [runNodes]
  | cons n rest ih =>
    have hstep := stepNode_debug_invariant d n st
    simp only [runNodes]
    rw [hstep.1, hstep.2]
    cases he : (execList oracle (stepNode false n st).ops).2 with
    | some e => simp
    | none =>
      have h := ih (stepNode false n st).stack
      simp [h.1, h.2.1, h.2.2]

/-- C9: running the pipeline with the debug flag on or off produces the
same parsed nodes, base decision, path-stack evolution, executed creation
calls and fatal error — tracing never alters parsing or building. -/
theorem c9_debug_invariant (isWindows d1 d2 : Bool)
    (oracle : Op → Option IoErr) (lines : List Str) :
    stripLogs (runMain isWindows d1 oracle lines) =
      stripLogs (runMain isWindows d2 oracle lines) := by
  unfold runMain
  by_cases hl : lines = []
  · simp [hl]
  · by_cases hn : (parseLoop isWindows 0 lines).1 = []
    · simp [hl, hn]
    · have h1 := runNodes_debug_invariant d1 oracle
        (parseLoop isWindows 0 lines).1 []
      have h2 := runNodes_debug_invariant d2 oracle
        (parseLoop isWindows 0 lines).1 []
      simp [hl, hn, stripLogs, h1.1, h1.2.1, h1.2.2, h2.1, h2.2.1, h2.2.2]

end Mks

namespace Mks

-- ==========================================================================
-- C4 (amended)
-- ==========================================================================

/-- Lines other than index 0 never contribute the root full path. -/
theorem parseLoop_rootFp_none (isWindows : Bool) (lines : List Str)
    (idx : Nat) (h : idx ≠ 0) : (parseLoop isWindows idx lines).2.1 = none := by
  induction lines generalizing idx with
  | nil => rfl
  | cons l rest ih =>
    unfold parseLoop
    cases hp : parse_tree_line isWindows l (idx + 1) with
    | ok r => simp [h, ih (idx + 1) (Nat.succ_ne_zero idx)]
    | error e => simp [ih (idx + 1) (Nat.succ_ne_zero idx)]

/-- The saved root full path is exactly the absolute-path side value of
input line 1's parse, when that parse succeeded. -/
theorem parseLoop_rootFp_head (isWindows : Bool) (l : Str)
    (rest : List Str) :
    (parseLoop isWindows 0 (l :: rest)).2.1 =
      (match parse_tree_line isWindows l 1 with
       | .ok (_, some fp) => some fp
       | _ => none) := by
  unfold parseLoop
  cases hp : parse_tree_line isWindows l 1 with
  | ok r =>
    cases hr : r with
    | mk node fp =>
      cases fp with
      | some s => simp
      | none => simp [parseLoop_rootFp_none isWindows rest 1 Nat.one_ne_zero]
  | error e => simp [parseLoop_rootFp_none isWindows rest 1 Nat.one_ne_zero]

/-- C4 (amended): the base directory is decided exactly once, after all
lines are parsed, from the absolute-path side value of *input line 1* (not
of the first successfully-parsed node, see `c4_counterexample`): if line 1
parsed successfully and carried an absolute path, the base is that path's
parent directory (created if missing; the working directory if no parent
can be extracted), otherwise the process's current working directory. -/
theorem c4_base_from_first_line (isWindows debug : Bool)
    (oracle : Op → Option IoErr) (l : Str) (rest : List Str)
    (h : (parseLoop isWindows 0 (l :: rest)).1 ≠ []) :
    mainBase (runMain isWindows debug oracle (l :: rest)) =
      some (match parse_tree_line isWindows l 1 with
            | .ok (_, some fp) =>
              (match extract_parent_path fp with
               | some p => BasePath.abs p
               | none => BasePath.cwd)
            | _ => BasePath.cwd) := by
  have hne : (l :: rest) ≠ ([] : List Str) := by simp
  unfold runMain
  rw [if_neg hne, if_neg h]
  simp only [mainBase]
  rw [parseLoop_rootFp_head]
  unfold basePathOf
  cases hp : parse_tree_line isWindows l 1 with
  | error e => simp
  | ok r =>
    obtain ⟨node, fp⟩ := r
    cases fp with
    | none => simp
    | some s => cases hpp : extract_parent_path s <;> simp [hpp]


/-- Witness for `c4_base_from_first_line`: a lone absolute-path line makes
the base its parent directory. -/
theorem c4_base_from_first_line_witness :
    (parseLoop false 0 [("/home/user/app/".toList)]).1 ≠ [] ∧
    mainBase (runMain false false okOracle [("/home/user/app/".toList)]) =
      some (BasePath.abs ("/home/user".toList)) := by
  have h := c4_base_from_first_line false false okOracle
    ("/home/user/app/".toList) [] (by decide)
  exact ⟨by decide, h.trans (by decide)⟩

end Mks

namespace Mks

-- ==========================================================================
-- C5: recoverable parse failures, terminal empty run, fatal build failures
-- ==========================================================================

/-- The parse loop visits every line: nodes are exactly the successful
parses in order, the failure counter counts exactly the failing lines. -/
theorem parseLoop_char (isWindows : Bool) (lines : List Str) (i : Nat) :
    (parseLoop isWindows i lines).1 =
      (List.enumFrom i lines).filterMap (fun p =>
        match parse_tree_line isWindows p.2 (p.1 + 1) with
        | .ok r => some r.1
        | .error _ => none) ∧
    (parseLoop isWindows i lines).2.2 =
      (List.enumFrom i lines).countP (fun p =>
        !parseOk (parse_tree_line isWindows p.2 (p.1 + 1))) := by
  induction lines generalizing i with
  | nil => exact ⟨rfl, rfl⟩
  | cons l rest ih =>
    have h := ih (i + 1)
    unfold parseLoop
    cases hp : parse_tree_line isWindows l (i + 1) with
    | ok r => simp [List.enumFrom, hp, h.1, h.2, List.countP_cons, parseOk]
    | error e => simp [List.enumFrom, hp, h.1, h.2, List.countP_cons, parseOk]

/-- No line is lost: successful parses and failures add up to the number
of input lines. -/
theorem parseLoop_total (isWindows : Bool) (lines : List Str) (i : Nat) :
    (parseLoop isWindows i lines).1.length + (parseLoop isWindows i lines).2.2
      = lines.length := by
  induction lines generalizing i with
  | nil => rfl
  | cons l rest ih =>
    have h := ih (i + 1)
    unfold parseLoop
    cases hp : parse_tree_line isWindows l (i + 1) with
    | ok r => simp only [List.length_cons]; omega
    | error e => simp only [List.length_cons]; omega

/-- Executing a trace of creation calls succeeds for exactly the longest
all-succeeding prefix and propagates the error of the first failing call. -/
theorem execList_char (oracle : Op → Option IoErr) (ops : List Op) :
    execList oracle ops =
      (ops.takeWhile (okP oracle),
       ((ops.dropWhile (okP oracle)).head?).bind oracle) := by
  induction ops with
  | nil => rfl
  | cons o os ih =>
    cases h : oracle o with
    | some e =>
      have hok : okP oracle o = false := by simp [okP, h]
      simp [execList, h, List.takeWhile_cons, List.dropWhile_cons, hok]
    | none =>
      have hok : okP oracle o = true := by simp [okP, h]
      simp [execList, h, List.takeWhile_cons, List.dropWhile_cons, hok, ih]

/-- `takeWhile` over an append whose first part fully satisfies `p`. -/
theorem takeWhile_append_all {α : Type} (p : α → Bool) (a b : List α)
    (h : a.all p = true) : (a ++ b).takeWhile p = a ++ b.takeWhile p := by
  induction a with
  | nil => simp
  | cons x xs ih =>
    simp only [List.all_cons, Bool.and_eq_true] at h
    simp [List.takeWhile_cons, h.1, ih h.2]

/-- `dropWhile` over an append whose first part fully satisfies `p`. -/
theorem dropWhile_append_all {α : Type} (p : α → Bool) (a b : List α)
    (h : a.all p = true) : (a ++ b).dropWhile p = b.dropWhile p := by
  induction a with
  | nil => simp
  | cons x xs ih =>
    simp only [List.all_cons, Bool.and_eq_true] at h
    simp [List.dropWhile_cons, h.1, ih h.2]

/-- `takeWhile` over an append whose first part contains a failure. -/
theorem takeWhile_append_stop {α : Type} (p : α → Bool) (a b : List α)
    (h : a.all p = false) : (a ++ b).takeWhile p = a.takeWhile p := by
  induction a with
  | nil => simp at h
  | cons x xs ih =>
    cases hx : p x with
    | false => simp [List.takeWhile_cons, hx]
    | true =>
      simp only [List.all_cons, hx, Bool.true_and] at h
      simp [List.takeWhile_cons, hx, ih h]

/-- `dropWhile` over an append whose first part contains a failure. -/
theorem dropWhile_append_stop {α : Type} (p : α → Bool) (a b : List α)
    (h : a.all p = false) : (a ++ b).dropWhile p = a.dropWhile p ++ b := by
  induction a with
  | nil => simp at h
  | cons x xs ih =>
    cases hx : p x with
    | false => simp [List.dropWhile_cons, hx]
    | true =>
      simp only [List.all_cons, hx, Bool.true_and] at h
      simp [List.dropWhile_cons, hx, ih h]

/-- The head of a `dropWhile` result fails the predicate. -/
theorem dropWhile_head_not {α : Type} (p : α → Bool) (l : List α)
    (o : α) (tl : List α) (h : l.dropWhile p = o :: tl) : p o = false := by
  induction l with
  | nil => simp at h
  | cons x xs ih =>
    cases hx : p x with
    | false =>
      rw [List.dropWhile_cons, hx] at h
      simp at h
      rw [← h.1]
      exact hx
    | true =>
      rw [List.dropWhile_cons, hx] at h
      simp at h
      exact ih h

/-- If not every element satisfies `p`, `dropWhile p` is nonempty. -/
theorem dropWhile_ne_nil_of_not_all {α : Type} (p : α → Bool) (l : List α)
    (h : l.all p = false) : l.dropWhile p ≠ [] := by
  intro hnil
  rw [List.dropWhile_eq_nil_iff] at hnil
  rw [List.all_eq_true.symm] at hnil
  · rw [hnil] at h; simp at h

/-- `takeWhile` keeps everything when all elements satisfy `p`. -/
theorem takeWhile_all {α : Type} (p : α → Bool) (l : List α)
    (h : l.all p = true) : l.takeWhile p = l := by
  induction l with
  | nil => rfl
  | cons x xs ih =>
    simp only [List.all_cons, Bool.and_eq_true] at h
    simp [List.takeWhile_cons, h.1, ih h.2]

/-- A build run executes exactly the calls before the first failing one and
returns the error of that first failing call. -/
theorem runNodes_char (debug : Bool) (oracle : Op → Option IoErr)
    (nodes : List TreeNode) (st : List Str) :
    (runNodes debug oracle nodes st).executed =
      (allOps nodes st).takeWhile (okP oracle) ∧
    (runNodes debug oracle nodes st).err =
      ((allOps nodes st).dropWhile (okP oracle)).head?.bind oracle := by
  induction nodes generalizing st with
  | nil => simp [runNodes, allOps]
  | cons n rest ih =>
    have hstep := stepNode_debug_invariant debug n st
    have hexec := execList_char oracle (stepNode false n st).ops
    have hih := ih (stepNode false n st).stack
    simp only [runNodes, allOps]
    rw [hstep.1, hstep.2, hexec]
    cases hall : ((stepNode false n st).ops).all (okP oracle) with
    | true =>
      have hdw : ((stepNode false n st).ops).dropWhile (okP oracle) = [] := by
        rw [List.dropWhile_eq_nil_iff]
        intro x hx
        exact List.all_eq_true.mp hall x hx
      have htw : ((stepNode false n st).ops).takeWhile (okP oracle) =
          (stepNode false n st).ops := takeWhile_all _ _ hall
      rw [htw, hdw]
      simp only [List.head?_nil, Option.none_bind]
      rw [takeWhile_append_all _ _ _ hall, dropWhile_append_all _ _ _ hall]
      exact ⟨by rw [hih.1], by rw [hih.2]⟩
    | false =>
      have hne := dropWhile_ne_nil_of_not_all (okP oracle)
        ((stepNode false n st).ops) hall
      cases hdw : ((stepNode false n st).ops).dropWhile (okP oracle) with
      | nil => exact absurd hdw hne
      | cons o tl =>
        have hok : okP oracle o = false := dropWhile_head_not _ _ _ _ hdw
        have horacle : ∃ e, oracle o = some e := by
          cases ho : oracle o with
          | none => rw [okP, ho] at hok; simp at hok
          | some e => exact ⟨e, rfl⟩
        obtain ⟨e, he⟩ := horacle
        rw [takeWhile_append_stop _ _ _ hall, dropWhile_append_stop _ _ _ hall,
          hdw]
        simp [he]

end Mks

namespace Mks

/-- C5: (i) every line is processed — the parsed nodes are exactly the
successful parses in order and the failure counter counts exactly the
failing lines, so a parse failure (any of the four `ParseError` kinds) only
skips its own line and the run never aborts during parsing; (ii) a run with
zero successfully-parsed nodes is reported as the terminal
`noValidStructure` condition, which builds nothing; (iii) the build
executes exactly the creation calls that precede the first failing call and
surfaces that first failing call's error — no later call of any node runs. -/
theorem c5_error_handling (isWindows debug : Bool)
    (oracle : Op → Option IoErr) (lines : List Str) :
    (parseLoop isWindows 0 lines).1 =
      (List.enumFrom 0 lines).filterMap (fun p =>
        match parse_tree_line isWindows p.2 (p.1 + 1) with
        | .ok r => some r.1
        | .error _ => none) ∧
    (parseLoop isWindows 0 lines).2.2 =
      (List.enumFrom 0 lines).countP (fun p =>
        !parseOk (parse_tree_line isWindows p.2 (p.1 + 1))) ∧
    (parseLoop isWindows 0 lines).1.length + (parseLoop isWindows 0 lines).2.2
      = lines.length ∧
    (lines ≠ [] → (parseLoop isWindows 0 lines).1 = [] →
      runMain isWindows debug oracle lines =
        .noValidStructure (parseLoop isWindows 0 lines).2.2) ∧
    mainExecuted (runMain isWindows debug oracle lines) =
      (mainAllOps isWindows lines).takeWhile (okP oracle) ∧
    mainErr (runMain isWindows debug oracle lines) =
      ((mainAllOps isWindows lines).dropWhile (okP oracle)).head?.bind
        oracle := by
  have hchar := parseLoop_char isWindows lines 0
  refine ⟨hchar.1, hchar.2, parseLoop_total isWindows lines 0, ?_, ?_, ?_⟩
  · intro hl hn
    unfold runMain
    rw [if_neg hl, if_pos hn]
  · by_cases hl : lines = []
    · subst hl
      simp [runMain, mainExecuted, mainAllOps, parseLoop, allOps]
    · by_cases hn : (parseLoop isWindows 0 lines).1 = []
      · have hrm : runMain isWindows debug oracle lines =
            .noValidStructure (parseLoop isWindows 0 lines).2.2 := by
          unfold runMain; rw [if_neg hl, if_pos hn]
        rw [hrm]
        simp [mainExecuted, mainAllOps, hn, allOps]
      · have hrm : runMain isWindows debug oracle lines =
            .built (parseLoop isWindows 0 lines).1
              (basePathOf (parseLoop isWindows 0 lines).2.1)
              (runNodes debug oracle (parseLoop isWindows 0 lines).1
                []).stackTrace
              (runNodes debug oracle (parseLoop isWindows 0 lines).1
                []).executed
              (runNodes debug oracle (parseLoop isWindows 0 lines).1 []).err
              (runNodes debug oracle (parseLoop isWindows 0 lines).1
                []).logs := by
          unfold runMain; rw [if_neg hl, if_neg hn]
        rw [hrm]
        exact (runNodes_char debug oracle (parseLoop isWindows 0 lines).1
          []).1
  · by_cases hl : lines = []
    · subst hl
      simp [runMain, mainErr, mainAllOps, parseLoop, allOps]
    · by_cases hn : (parseLoop isWindows 0 lines).1 = []
      · have hrm : runMain isWindows debug oracle lines =
            .noValidStructure (parseLoop isWindows 0 lines).2.2 := by
          unfold runMain; rw [if_neg hl, if_pos hn]
        rw [hrm]
        simp [mainErr, mainAllOps, hn, allOps]
      · have hrm : runMain isWindows debug oracle lines =
            .built (parseLoop isWindows 0 lines).1
              (basePathOf (parseLoop isWindows 0 lines).2.1)
              (runNodes debug oracle (parseLoop isWindows 0 lines).1
                []).stackTrace
              (runNodes debug oracle (parseLoop isWindows 0 lines).1
                []).executed
              (runNodes debug oracle (parseLoop isWindows 0 lines).1 []).err
              (runNodes debug oracle (parseLoop isWindows 0 lines).1
                []).logs := by
          unfold runMain; rw [if_neg hl, if_neg hn]
        rw [hrm]
        exact (runNodes_char debug oracle (parseLoop isWindows 0 lines).1
          []).2

/-- Witness for `c5_error_handling`: a three-entry input whose middle line
fails to parse, run against an oracle that rejects creating `b.txt`: the
run reports one skipped line, executes only the calls before the failing
one, and surfaces that call's error. -/
theorem c5_error_handling_witness :
    runMain false false failBOracle [("# note".toList)] =
      .noValidStructure 1 ∧
    mainExecuted (runMain false false failBOracle
        [("a.txt".toList), ("#".toList), ("b.txt & c.txt".toList)]) =
      [Op.mkdirAll [], Op.touch [("a.txt".toList)], Op.mkdirAll []] ∧
    mainErr (runMain false false failBOracle
        [("a.txt".toList), ("#".toList), ("b.txt & c.txt".toList)]) =
      some ("denied".toList) := by
  have h1 := c5_error_handling false false failBOracle [("# note".toList)]
  have h2 := c5_error_handling false false failBOracle
    [("a.txt".toList), ("#".toList), ("b.txt & c.txt".toList)]
  refine ⟨(h1.2.2.2.1 (by decide) (by decide)).trans (by decide),
    (h2.2.2.2.2.1).trans (by decide), (h2.2.2.2.2.2).trans (by decide)⟩

end Mks

namespace Mks

-- ==========================================================================
-- C7 (amended): element-wise validity on the POSIX ruleset
-- ==========================================================================

/-- Trimming the end keeps a sublist. -/
theorem trimEndWs_sublist (s : Str) : List.Sublist (trimEndWs s) s := by
  have h : List.Sublist (s.reverse.dropWhile rustIsWhitespace) s.reverse :=
    List.dropWhile_sublist _
  have h2 := h.reverse
  rwa [List.reverse_reverse] at h2

/-- Trimming keeps a sublist. -/
theorem rustTrim_sublist (s : Str) : List.Sublist (rustTrim s) s :=
  (List.dropWhile_sublist _).trans (trimEndWs_sublist s)

/-- Every piece produced by `splitOnChar` is a sublist of the input. -/
theorem splitOnChar_sublist (sep : Char) (l : Str) :
    ∀ p ∈ splitOnChar sep l, List.Sublist p l := by
  induction l with
  | nil =>
    intro p hp
    simp [splitOnChar] at hp
    simp [hp]
  | cons c rest ih =>
    intro p hp
    unfold splitOnChar at hp
    by_cases hc : c = sep
    · rw [if_pos hc] at hp
      rcases List.mem_cons.mp hp with h | h
      · simp [h]
      · exact (ih p h).trans (List.sublist_cons_self c rest)
    · rw [if_neg hc] at hp
      cases hs : splitOnChar sep rest with
      | nil =>
        rw [hs] at hp
        simp at hp
        rw [hp]
        exact (List.nil_sublist rest).cons₂ c
      | cons q qs =>
        rw [hs] at hp
        rcases List.mem_cons.mp hp with h | h
        · rw [h]
          have hq : List.Sublist q rest := ih q (by rw [hs]; simp)
          exact hq.cons₂ c
        · have : p ∈ splitOnChar sep rest := by rw [hs]; simp [h]
          exact (ih p this).trans (List.sublist_cons_self c rest)

/-- Every name in a conjunction split is a (nonempty) sublist of the
un-split name. -/
theorem splitNames_sublist (nm frag : Str) (h : frag ∈ splitNames nm) :
    List.Sublist frag nm ∧ frag ≠ [] := by
  unfold splitNames at h
  have hmem := List.mem_of_mem_filter h
  have hne : frag ≠ [] := by
    have := List.of_mem_filter h
    simpa using this
  obtain ⟨piece, hpiece, hfrag⟩ := List.mem_map.mp hmem
  refine ⟨?_, hne⟩
  rw [← hfrag]
  exact (rustTrim_sublist piece).trans (splitOnChar_sublist '&' nm piece hpiece)

/-- Byte length is monotone along sublists. -/
theorem utf8Len_mono (l1 l2 : Str) (h : List.Sublist l1 l2) :
    utf8Len l1 ≤ utf8Len l2 := by
  unfold utf8Len
  induction h with
  | slnil => simp
  | cons a h ih => simp only [List.map_cons, List.sum_cons]; omega
  | cons₂ a h ih => simp only [List.map_cons, List.sum_cons]; omega

/-- If the end-trim of a list is empty, the list is all whitespace. -/
theorem trimEndWs_eq_nil_all (l : Str) (h : trimEndWs l = []) :
    ∀ c ∈ l, rustIsWhitespace c = true := by
  intro c hc
  unfold trimEndWs at h
  rw [List.reverse_eq_nil_iff] at h
  rw [List.dropWhile_eq_nil_iff] at h
  exact h c (by simpa using hc)

/-- The end-trim of a list is one of its prefixes. -/
theorem trimEndWs_prefix (l : Str) :
    ∃ t, l = trimEndWs l ++ t := by
  refine ⟨(l.reverse.takeWhile rustIsWhitespace).reverse, ?_⟩
  unfold trimEndWs
  rw [← List.reverse_append, List.takeWhile_append_dropWhile,
    List.reverse_reverse]

/-- Trimming a list that starts with a non-whitespace character is
nonempty. -/
theorem rustTrim_ne_nil (c : Char) (tl : Str)
    (hc : rustIsWhitespace c = false) : rustTrim (c :: tl) ≠ [] := by
  unfold rustTrim trimStartWs
  cases htr : trimEndWs (c :: tl) with
  | nil =>
    have := trimEndWs_eq_nil_all (c :: tl) htr c (by simp)
    rw [this] at hc
    exact absurd hc (by simp)
  | cons d tl2 =>
    obtain ⟨t, ht⟩ := trimEndWs_prefix (c :: tl)
    rw [htr] at ht
    have hd : d = c := by
      have := congrArg List.head? ht
      simpa using this.symm
    subst hd
    rw [List.dropWhile_cons, hc]
    simp

/-- A trimmed string starts with a non-whitespace character (or is
empty). -/
theorem rustTrim_head_not_ws (s : Str) (c : Char) (tl : Str)
    (h : rustTrim s = c :: tl) : rustIsWhitespace c = false :=
  dropWhile_head_not rustIsWhitespace (trimEndWs s) c tl h

/-- A successfully parsed line carries a name that passed the Filename
Validator. -/
theorem parse_ok_valid (isWindows : Bool) (line : Str) (ln : Nat)
    (node : TreeNode) (fp : Option Str)
    (h : parse_tree_line isWindows line ln = .ok (node, fp)) :
    is_valid_filename isWindows node.name = true := by
  unfold parse_tree_line at h
  simp only [] at h
  split at h
  · cases h
  · split at h
    · cases h
    · split at h
      · cases h
      · next n0 fp0 heq =>
        split at h
        all_goals
          split at h
          · cases h
          · next hcond =>
            simp only [Bool.or_eq_true, Bool.not_eq_true', not_or] at hcond
            simp only [Except.ok.injEq, Prod.mk.injEq] at h
            obtain ⟨hnode, hfp⟩ := h
            subst hnode
            simpa using hcond.2

/-- Every name in a conjunction split is the trim of some piece. -/
theorem splitNames_is_trimmed (nm frag : Str) (h : frag ∈ splitNames nm) :
    ∃ piece, frag = rustTrim piece := by
  unfold splitNames at h
  have hmem := List.mem_of_mem_filter h
  obtain ⟨piece, _, hfrag⟩ := List.mem_map.mp hmem
  exact ⟨piece, hfrag.symm⟩

/-- Unfolded characterization of the POSIX-ruleset Filename Validator. -/
theorem is_valid_posix_iff (name : Str) :
    is_valid_filename false name = true ↔
      (name ≠ [] ∧ utf8Len name ≤ 255 ∧ rustTrim name ≠ [] ∧
       '\x00' ∉ name ∧ '/' ∉ name ∧
       ∀ c ∈ name, (rustIsControl c && c != '\t') = false) := by
  unfold is_valid_filename
  simp only []
  split_ifs with h1 h2 h3 h4 h5 <;>
    simp_all [List.all_eq_true]
  constructor
  · intro hh c hc hctl
    rcases hh c hc with h' | h'
    · rw [hctl] at h'; cases h'
    · exact h'
  · intro hh c hc
    cases hctl : rustIsControl c with
    | false => exact Or.inl rfl
    | true => exact Or.inr (hh c hc hctl)

/-- C7 (amended, POSIX ruleset): every element of a successfully parsed
node's names sequence is independently valid per the Filename Validator —
an invalid element would have made the whole line fail with
`InvalidFilename` (fail-closed, never partial).  On the Windows ruleset
this fails, see `c7_counterexample`. -/
theorem c7_posix_fragments_valid (line : Str) (ln : Nat) (node : TreeNode)
    (fp : Option Str)
    (h : parse_tree_line false line ln = .ok (node, fp)) :
    ∀ frag ∈ splitNames node.name, is_valid_filename false frag = true := by
  intro frag hfrag
  have hvalid := (is_valid_posix_iff node.name).mp
    (parse_ok_valid false line ln node fp h)
  obtain ⟨hwne, hwlen, hwtrim, hwnul, hwslash, hwctl⟩ := hvalid
  obtain ⟨hsub, hne⟩ := splitNames_sublist node.name frag hfrag
  obtain ⟨piece, hpiece⟩ := splitNames_is_trimmed node.name frag hfrag
  refine (is_valid_posix_iff frag).mpr ⟨hne, ?_, ?_, ?_, ?_, ?_⟩
  · exact le_trans (utf8Len_mono frag node.name hsub) hwlen
  · cases hf : frag with
    | nil => exact absurd hf hne
    | cons c tl =>
      have hcws : rustIsWhitespace c = false :=
        rustTrim_head_not_ws piece c tl (hpiece.symm.trans hf)
      exact rustTrim_ne_nil c tl hcws
  · intro hmem; exact hwnul (hsub.subset hmem)
  · intro hmem; exact hwslash (hsub.subset hmem)
  · intro c hc; exact hwctl c (hsub.subset hc)

/-- Witness for `c7_posix_fragments_valid`: the parsed conjunction line
`"a.txt & b.txt"` has its first split element valid. -/
theorem c7_posix_fragments_valid_witness :
    parse_tree_line false ("a.txt & b.txt".toList) 1 =
      .ok (⟨0, ("a.txt & b.txt".toList), false, 1⟩, none) ∧
    is_valid_filename false ("a.txt".toList) = true := by
  refine ⟨by decide, c7_posix_fragments_valid ("a.txt & b.txt".toList) 1
    ⟨0, ("a.txt & b.txt".toList), false, 1⟩ none (by decide) ("a.txt".toList)
    (by decide)⟩

end Mks

namespace Mks

-- ==========================================================================
-- C10: size-annotation stripping
-- ==========================================================================

/-- An occurrence at any dropped position is an occurrence. -/
theorem hasSub_of_prefix_drop (pat l : Str) (k : Nat)
    (h : pat.isPrefixOf (l.drop k) = true) : hasSub pat l = true := by
  induction l generalizing k with
  | nil =>
    simp only [List.drop_nil] at h
    simpa [hasSub] using h
  | cons c rest ih =>
    cases k with
    | zero =>
      simp only [List.drop_zero] at h
      unfold hasSub
      rw [h]
      simp
    | succ k =>
      rw [List.drop_succ_cons] at h
      unfold hasSub
      rw [ih k h]
      simp

/-- The downward search returns the largest matching position. -/
theorem rfindSubFrom_eq (pat l : Str) (k n : Nat)
    (h1 : pat.isPrefixOf (l.drop k) = true)
    (h2 : ∀ j, k < j → pat.isPrefixOf (l.drop j) = false)
    (hkn : k ≤ n) : rfindSubFrom pat l n = some k := by
  induction n with
  | zero =>
    have hk : k = 0 := Nat.le_zero.mp hkn
    subst hk
    simp only [List.drop_zero] at h1
    unfold rfindSubFrom
    rw [h1]
    simp
  | succ n ih =>
    by_cases hk : k = n + 1
    · subst hk
      unfold rfindSubFrom
      rw [h1]
      simp
    · have hle : k ≤ n := by omega
      unfold rfindSubFrom
      rw [h2 (n + 1) (by omega)]
      simp only [Bool.false_eq_true, if_false]
      exact ih hle

/-- C10: (general) whenever the suffix starting at the last occurrence of
`" ("` contains the literal `"B)"`, `"KB)"` or `"MB)"` anywhere — no number
need precede the unit — the whole suffix is removed and the remainder is
trimmed; and (instances) the names `disk.img (3 GB)` and `note (x B)` both
have their parenthesized suffix stripped by the parser. -/
theorem c10_size_suffix :
    (∀ pre post : Str,
      hasSub (" (".toList) ('(' :: post) = false →
      (hasSub ("B)".toList) (' ' :: '(' :: post) = true ∨
       hasSub ("KB)".toList) (' ' :: '(' :: post) = true ∨
       hasSub ("MB)".toList) (' ' :: '(' :: post) = true) →
      stripSizeInfo (pre ++ ' ' :: '(' :: post) = rustTrim pre) ∧
    parse_tree_line false ("├── disk.img (3 GB)".toList) 4 =
      .ok (⟨0, ("disk.img".toList), false, 4⟩, none) ∧
    parse_tree_line false ("note (x B)".toList) 1 =
      .ok (⟨0, ("note".toList), false, 1⟩, none) := by
  refine ⟨?_, by decide, by decide⟩
  intro pre post hlast hunit
  have hfind : rfindSub (" (".toList) (pre ++ ' ' :: '(' :: post) =
      some pre.length := by
    apply rfindSubFrom_eq
    · rw [List.drop_left]
      simp [List.isPrefixOf]
    · intro j hj
      obtain ⟨m, hm⟩ : ∃ m, j = pre.length + (m + 1) := ⟨j - pre.length - 1, by omega⟩
      subst hm
      rw [← List.drop_drop, List.drop_left, List.drop_succ_cons]
      cases hp : ((" (".toList)).isPrefixOf (List.drop m ('(' :: post)) with
      | false => rfl
      | true => rw [hasSub_of_prefix_drop _ _ m hp] at hlast; cases hlast
    · simp only [List.length_append, List.length_cons]
      omega
  have hcond : (hasSub ("B)".toList) (' ' :: '(' :: post) ||
      hasSub ("KB)".toList) (' ' :: '(' :: post) ||
      hasSub ("MB)".toList) (' ' :: '(' :: post)) = true := by
    simp only [Bool.or_eq_true]
    rcases hunit with h | h | h
    · exact Or.inl (Or.inl h)
    · exact Or.inl (Or.inr h)
    · exact Or.inr h
  unfold stripSizeInfo
  rw [hfind]
  simp only [List.drop_left, List.take_left]
  rw [if_pos hcond]

/-- Witness for `c10_size_suffix`: stripping `"disk.img (3 GB)"` leaves
`"disk.img"`. -/
theorem c10_size_suffix_witness :
    stripSizeInfo (("disk.img".toList) ++ ' ' :: '(' :: ("3 GB)".toList)) =
      rustTrim ("disk.img".toList) ∧
    rustTrim ("disk.img".toList) = ("disk.img".toList) := by
  refine ⟨c10_size_suffix.1 ("disk.img".toList) ("3 GB)".toList) (by decide)
    (Or.inl (by decide)), by decide⟩

end Mks
